import Mathlib

/-!
Shallow embedding of the broadcast distribution and forward-message
transcoding engine of `zhenxun/builtin_plugins/superuser/broadcast/`
(`utils.py`, `message_processor.py`, `broadcast_manager.py`), together with
theorems settling the specification claims about it.

Conventions of the embedding:
* Python strings are `String`, byte strings are `List Nat`.
* A Python value that may be absent (`dict.get` returning `None`,
  `getattr(x, a, None)`) is an `Option`; Python truthiness of strings,
  lists and options is made explicit through `*Truthy` helpers.
* The injected network capabilities (`bot.call_api("get_forward_msg")`,
  `message.send`, `bot.send_group_forward_msg`, `delete_msg`,
  `task_is_block`, `get_target`) are oracle functions packaged in
  environment records; an outcome type records whether a call returned a
  value or raised.
* Logging calls are dropped; sleeps are recorded as trace events.
* Recursion of the forward resolver is bounded by
  `MAX_FORWARD_DEPTH = 3`; the Lean functions recurse structurally on the
  remaining slack `MAX_FORWARD_DEPTH - depth`, which is zero exactly when
  the Python guard `depth >= MAX_FORWARD_DEPTH` fires, so every
  definition is a computable structural recursion.
-/

namespace Broadcast

/-- `MAX_FORWARD_DEPTH` from `message_processor.py` (also the literal `3`
in `utils.py`'s depth check). -/
def MAX_FORWARD_DEPTH : Nat := 3

/-- Raw payload of an alconna media segment: `Image.raw` / `Video.raw`
may be a `str` or `bytes` in the source. -/
inductive RawData where
  | rstr (s : String)
  | rbytes (b : List Nat)
deriving Repr, DecidableEq

/-- Python truthiness of a raw payload (`getattr(seg, "raw", None)`). -/
def RawData.truthy : RawData → Bool
  | .rstr s => s ≠ ""
  | .rbytes b => b ≠ []

/-- The `url` / `path` / `raw` fields carried by alconna `Image` and
`Video` segments (absent attribute = `none`). -/
structure MediaData where
  url : Option String := none
  path : Option String := none
  raw : Option RawData := none
deriving Repr, DecidableEq

/-- Python truthiness of an optional string (absent or `""` is falsy). -/
def optStrTruthy : Option String → Bool
  | none => false
  | some s => s ≠ ""

/-- Python truthiness of an optional raw payload. -/
def optRawTruthy : Option RawData → Bool
  | none => false
  | some r => r.truthy

/-- `sender` dict of a raw forward node (`{"user_id": ..., "nickname": ...}`);
`user_id` is stored after Python `str()` conversion. -/
structure SenderData where
  user_id : Option String := none
  nickname : Option String := none
deriving Repr, DecidableEq

mutual
/-- Platform-neutral alconna segment (`nonebot_plugin_alconna` uniseg).
`unsupported` stands for any segment class other than
`Text`/`Image`/`At`/`AtAll`/`Video`/`Reference`. -/
inductive USeg where
  | text (t : String)
  | image (d : MediaData)
  | video (d : MediaData)
  | at (target : String)
  | atAll
  | reference (nodes : List CustomNode)
  | unsupported (descr : String)

/-- alconna `CustomNode(uid, name, content)`. -/
inductive CustomNode where
  | mk (uid : String) (name : String) (content : NodeContent)

/-- `CustomNode.content` is either a `str` or a `UniMessage`. -/
inductive NodeContent where
  | uniC (segs : List USeg)
  | strC (s : String)
end

def CustomNode.uid : CustomNode → String
  | .mk u _ _ => u

def CustomNode.name : CustomNode → String
  | .mk _ n _ => n

def CustomNode.content : CustomNode → NodeContent
  | .mk _ _ c => c

mutual
/-- The `data` dict of a V11 wire segment: the keys that the engine
reads. Values the engine treats as strings are narrowed to `String`. -/
inductive V11Data where
  | mk (text url file qq fid resid : Option String)
      (content : Option FwdContent)

/-- `data_dict.get("content")` of a V11 `forward` segment: an inline node
list, a JSON string (with the result of `json.loads` when it parses to a
list), or some other object. -/
inductive FwdContent where
  | fcList (nodes : List NodeData)
  | fcStr (parsed : Option (List NodeData)) (raw : String)
  | fcOther (truthy : Bool)

/-- One raw forward-node dict: `message`/`content` payload and `sender`. -/
inductive NodeData where
  | mk (message content : Option MsgContent) (sender : Option SenderData)

/-- The duck-typed `message_content` accepted by
`_extract_content_from_message`: `UniMessage`, `V11Message`, plain list,
a single `{"type": ..., "data": ...}` dict, a string, or anything else. -/
inductive MsgContent where
  | mcUni (segs : List USeg)
  | mcV11 (dicts : List V11Dict)
  | mcList (items : List SegObj)
  | mcDict (d : V11Dict)
  | mcStr (s : String)
  | mcOther (truthy : Bool)

/-- An element of a plain-list `message_content`: an alconna segment
object, a V11 segment (object or dict), or some other object. -/
inductive SegObj where
  | alcSeg (s : USeg)
  | dictSeg (d : V11Dict)
  | otherObj

/-- A V11 wire segment dict `{"type": ..., "data": ...}`; `none` models
an absent key. -/
inductive V11Dict where
  | mk (ty : Option String) (dat : Option V11Data)
end

def V11Dict.ty : V11Dict → Option String
  | .mk t _ => t

def V11Dict.dat : V11Dict → Option V11Data
  | .mk _ d => d

def V11Data.text : V11Data → Option String
  | .mk t _ _ _ _ _ _ => t

def V11Data.url : V11Data → Option String
  | .mk _ u _ _ _ _ _ => u

def V11Data.file : V11Data → Option String
  | .mk _ _ f _ _ _ _ => f

def V11Data.qq : V11Data → Option String
  | .mk _ _ _ q _ _ _ => q

def V11Data.fid : V11Data → Option String
  | .mk _ _ _ _ i _ _ => i

def V11Data.resid : V11Data → Option String
  | .mk _ _ _ _ _ r _ => r

def V11Data.content : V11Data → Option FwdContent
  | .mk _ _ _ _ _ _ c => c

/-- Python truthiness of a `FwdContent` value. -/
def FwdContent.truthy : FwdContent → Bool
  | .fcList nodes => !nodes.isEmpty
  | .fcStr _ raw => raw ≠ ""
  | .fcOther b => b

/-- Python truthiness of a `message_content` value (empty collections,
empty strings and empty dicts are falsy). -/
def MsgContent.truthy : MsgContent → Bool
  | .mcUni segs => !segs.isEmpty
  | .mcV11 dicts => !dicts.isEmpty
  | .mcList items => !items.isEmpty
  | .mcDict (.mk t d) => t.isSome || d.isSome
  | .mcStr s => s ≠ ""
  | .mcOther b => b

/-- `node_data.get("message") or node_data.get("content")`: Python `or`
keeps the first operand when it is truthy, otherwise the second. -/
def coalesceContent (a b : Option MsgContent) : Option MsgContent :=
  match a with
  | some m => if m.truthy then some m else b
  | none => b

def NodeData.message : NodeData → Option MsgContent
  | .mk m _ _ => m

def NodeData.content : NodeData → Option MsgContent
  | .mk _ c _ => c

def NodeData.sender : NodeData → Option SenderData
  | .mk _ _ s => s

/-- Keep an optional content value only when it is truthy. -/
def truthyContent : Option MsgContent → Option MsgContent
  | some m => if m.truthy then some m else none
  | none => none

/-- Abstraction of Python `str()` applied to an alconna segment object
(used by the duck-typed fallback in `uni_message_to_v11_list_of_dicts`;
the claims never depend on its exact text, only on its presence). -/
def segStr : USeg → String
  | .text t => "Text(" ++ t ++ ")"
  | .image _ => "Image()"
  | .video _ => "Video()"
  | .at t => "At(" ++ t ++ ")"
  | .atAll => "AtAll()"
  | .reference _ => "Reference()"
  | .unsupported d => d

/-! ### base64 (stdlib `base64.b64encode` / `base64.b64decode`) -/

/-- The base64 alphabet. -/
def b64alphabet : List Char :=
  "ABCDEFGHIJKLMNOPQRSTUVWXYZabcdefghijklmnopqrstuvwxyz0123456789+/".toList

/-- The alphabet character for a 6-bit value. -/
def b64char (i : Nat) : Char := b64alphabet.getD (i % 64) 'A'

/-- Encode bytes three at a time into four base64 characters, padding the
final partial chunk with `'='`. -/
def encodeChunks : List Nat → List Char
  | [] => []
  | [b1] =>
    let x := b1 % 256 * 65536
    [b64char (x / 262144), b64char (x / 4096 % 64), '=', '=']
  | [b1, b2] =>
    let x := b1 % 256 * 65536 + b2 % 256 * 256
    [b64char (x / 262144), b64char (x / 4096 % 64), b64char (x / 64 % 64), '=']
  | b1 :: b2 :: b3 :: rest =>
    let x := b1 % 256 * 65536 + b2 % 256 * 256 + b3 % 256
    b64char (x / 262144) :: b64char (x / 4096 % 64) :: b64char (x / 64 % 64) ::
      b64char (x % 64) :: encodeChunks rest

/-- `base64.b64encode(raw).decode()`. -/
def b64encode (b : List Nat) : String := String.mk (encodeChunks b)

/-- Characters `binascii` accepts when scanning base64 input. -/
def isB64Char (c : Char) : Bool := b64alphabet.contains c || c = '='

/-- The 6-bit value of an alphabet character (padding decodes as 0). -/
def b64val (c : Char) : Nat := b64alphabet.indexOf c % 64

/-- Decode base64 characters four at a time, honouring `'='` padding. -/
def decodeGroups : List Char → List Nat
  | c1 :: c2 :: c3 :: c4 :: rest =>
    let x := b64val c1 * 262144 + b64val c2 * 4096 + b64val c3 * 64 + b64val c4
    let bytes := [x / 65536, x / 256 % 256, x % 256]
    (if c3 = '=' then bytes.take 1 else if c4 = '=' then bytes.take 2 else bytes)
      ++ decodeGroups rest
  | _ => []

/-- `base64.b64decode` (default non-validating mode: characters outside
the alphabet are discarded, and the call raises — here `none` — exactly
when the remaining length is not a multiple of four). -/
def b64decode (s : String) : Option (List Nat) :=
  let cs := s.toList.filter isB64Char
  if cs.length % 4 = 0 then some (decodeGroups cs) else none

/-- Python `s.startswith(p)` (also `s[:9] == "base64://"` for the
nine-character prefix checks in the source). -/
def strStartsWith (s p : String) : Bool := p.toList.isPrefixOf s.toList

/-- Python `s[9:]`, used to strip a `"base64://"` prefix. -/
def strDrop9 (s : String) : String := String.mk (s.toList.drop 9)

/-- Python `s.lower()`, over the character list (the engine only compares
the ASCII word `"all"` and the wording `"delete message"`). -/
def strToLower (s : String) : String := String.mk (s.toList.map Char.toLower)

/-- Python `s.upper()`, over the character list (the engine only searches
for the ASCII wording `"MESSAGE_NOT_FOUND"`). -/
def strToUpper (s : String) : String := String.mk (s.toList.map Char.toUpper)

/-- ASCII whitespace, the relevant subset of what Python `str.strip()`
removes. -/
def isWS (c : Char) : Bool := c = ' ' || c = '\t' || c = '\n' || c = '\r'

/-- Python `s.strip()`. -/
def strStrip (s : String) : String :=
  String.mk (((s.toList.dropWhile isWS).reverse.dropWhile isWS).reverse)

/-! ### `utils.py`: the neutral → wire transcoder -/

/-- Return value of `uni_segment_to_v11_segment_dict`:
`dict | list[dict] | None`. -/
inductive ConvRes where
  | one (d : V11Dict)
  | many (ds : List V11Dict)
  | nores

/-- A `{"type": "text", "data": {"text": t}}` wire dict. -/
def textDict (t : String) : V11Dict :=
  .mk (some "text") (some (.mk (some t) none none none none none none))

/-- A `{"type": ty, "data": {"file": f}}` wire dict. -/
def fileDict (ty f : String) : V11Dict :=
  .mk (some ty) (some (.mk none none (some f) none none none none))

/-- A `{"type": "at", "data": {"qq": qq}}` wire dict. -/
def atDict (qq : String) : V11Dict :=
  .mk (some "at") (some (.mk none none none (some qq) none none none))

/-- The placeholder emitted when the nesting depth bound is reached. -/
def tooDeepText : String := "[嵌套转发层数过多，内容已省略]"

/-- Common body of the `alc.Image` and `Video` branches of
`uni_segment_to_v11_segment_dict` (the source duplicates this logic;
`ty` is `"image"` or `"video"`). A `raw` string is forwarded only when it
already carries the `base64://` prefix; a local path is wrapped as
`file:///`; otherwise the segment converts to `None`. -/
def mediaToV11Dict (ty : String) (d : MediaData) : ConvRes :=
  if optStrTruthy d.url then .one (fileDict ty (d.url.getD ""))
  else if optRawTruthy d.raw then
    match d.raw with
    | some (.rstr s) =>
      if strStartsWith s "base64://" then .one (fileDict ty s) else .nores
    | some (.rbytes bs) => .one (fileDict ty ("base64://" ++ b64encode bs))
    | none => .nores
  else if optStrTruthy d.path then
    .one (fileDict ty ("file:///" ++ d.path.getD ""))
  else .nores

/-- Author separator prepended for each node of a flattened `Reference`. -/
def sepDict (node : CustomNode) : V11Dict :=
  textDict ("\n--- 来自 " ++ node.name ++ " (" ++ node.uid ++ ") 的消息 ---\n")

/-- Conversion of one node's `content` inside the `Reference` branch
(`conv` is the recursive conversion at `depth + 1`): list results extend,
truthy dict results append, `None` results are skipped. -/
def nodeContentToV11 (conv : USeg → ConvRes) : NodeContent → List V11Dict
  | .uniC segs => segs.flatMap fun nested =>
      match conv nested with
      | .many l => l
      | .one d => [d]
      | .nores => []
  | .strC s => [textDict s]

/-- The `Reference`-branch loop of `uni_segment_to_v11_segment_dict`:
for each node with nonempty converted content the source does
`insert(0, separator)` on the shared accumulator, then extends it with
the content and appends the closing text. -/
def refNodesLoop (conv : USeg → ConvRes) :
    List CustomNode → List V11Dict → List V11Dict
  | [], acc => acc
  | node :: rest, acc =>
    let c := nodeContentToV11 conv node.content
    if c.isEmpty then refNodesLoop conv rest acc
    else refNodesLoop conv rest (sepDict node :: acc ++ c ++ [textDict "\n---\n"])

/-- Worker for `uni_segment_to_v11_segment_dict`, structurally recursive
on the remaining depth slack `3 - depth` (the depth bound applies only to
the `Reference` branch; atomic segments convert at any depth). -/
def uniSegToV11Go : Nat → USeg → ConvRes
  | _, .text t => .one (textDict t)
  | _, .image d => mediaToV11Dict "image" d
  | _, .at tg => .one (atDict tg)
  | _, .atAll => .one (atDict "all")
  | _, .video d => mediaToV11Dict "video" d
  | slack, .reference nodes =>
    if nodes.isEmpty then .nores
    else
      match slack with
      | 0 => .one (textDict tooDeepText)
      | s + 1 => .many (refNodesLoop (uniSegToV11Go s) nodes [])
  | _, .unsupported _ => .nores

/-- `utils.uni_segment_to_v11_segment_dict(seg, depth)`: converts one
neutral segment to the V11 wire form; a `Reference` at `depth >= 3`
collapses to the single placeholder text dict. -/
def uni_segment_to_v11_segment_dict (seg : USeg) (depth : Nat) : ConvRes :=
  uniSegToV11Go (MAX_FORWARD_DEPTH - depth) seg

/-- `str()` of an optional `url` attribute as the duck-typed converter
renders it (`str(None) = "None"`). -/
def strOfOptUrl : Option String → String
  | none => "None"
  | some u => u

/-- Duck-typed per-item conversion inside
`uni_message_to_v11_list_of_dicts`: alconna segments are not iterable;
`Text` exposes `text`; `Image` and `Video` expose `url` (possibly `None`);
every other segment falls back to a `str(item)` text dict. -/
def uMsgItem (item : USeg) : List V11Dict :=
  match item with
  | .text t => [textDict t]
  | .image d => [fileDict "image" (strOfOptUrl d.url)]
  | .video d => [fileDict "video" (strOfOptUrl d.url)]
  | other => [textDict (segStr other)]

/-- `utils.uni_message_to_v11_list_of_dicts(uni_msg)` for the inputs the
engine passes it (a `UniMessage`, which subclasses `list`, or a `str`).
The all-strings branch applies only to a bare string list and the final
`str(uni_msg)` fallback only to non-list non-str inputs, neither of which
the engine produces. -/
def uni_message_to_v11_list_of_dicts : NodeContent → List V11Dict
  | .strC s => [textDict s]
  | .uniC segs => if segs.isEmpty then [] else segs.flatMap uMsgItem

/-- A V11 forward node `{"type": "node", "data": {...}}`. -/
structure V11Node where
  user_id : String
  nickname : String
  content : List V11Dict

/-- `utils.custom_nodes_to_v11_nodes(custom_nodes)`: nodes whose content
converts to an empty list are skipped. -/
def custom_nodes_to_v11_nodes (nodes : List CustomNode) : List V11Node :=
  nodes.filterMap fun n =>
    let c := uni_message_to_v11_list_of_dicts n.content
    if c.isEmpty then none else some ⟨n.uid, n.name, c⟩

/-! ### `message_processor.py`: the wire → neutral resolver -/

/-- Result shapes of `bot.call_api("get_forward_msg", id=...)` that
`_process_forward_content` recognises, plus anything else. -/
inductive FetchData where
  | withMessages (msgs : List NodeData)
  | withDataMessage (msgs : List NodeData)
  | bareList (msgs : List NodeData)
  | otherShape

/-- Outcome of the fetch call: a value, an `ActionFailed`, or another
exception. -/
inductive FetchResult where
  | ok (d : FetchData)
  | actionFailed
  | otherError

/-- The `nodes_list` normalisation of the fetched data (`None` when no
recognised shape matches). -/
def shapeNodes : FetchData → Option (List NodeData)
  | .withMessages msgs => some msgs
  | .withDataMessage msgs => some msgs
  | .bareList msgs => some msgs
  | .otherShape => none

/-- `_create_custom_node_from_data` with the content extraction at the
node's own depth abstracted as `extractAt`. Nodes with falsy payload or
whose extraction is empty yield `None`. -/
def createNodeWith (extractAt : MsgContent → List USeg) (nd : NodeData) :
    Option CustomNode :=
  match truthyContent (coalesceContent nd.message nd.content) with
  | none => none
  | some raw =>
    let sender := nd.sender.getD ⟨none, none⟩
    let uid := sender.user_id.getD "10000"
    let name := sender.nickname.getD ("用户" ++ uid.take 4)
    let msg := extractAt raw
    if msg.isEmpty then none else some (.mk uid name (.uniC msg))

/-- The inline-content normalisation at the top of
`_process_forward_content`: a truthy list is used directly, a truthy
string is JSON-parsed (accepted only when the parse yields a list);
anything else leaves the content unparsed (`content_parsed` stays
false). -/
def inlineNodes : Option FwdContent → Option (List NodeData)
  | some fc =>
    if fc.truthy then
      match fc with
      | .fcList nodes => some nodes
      | .fcStr parsed _ => parsed
      | .fcOther _ => none
    else none
  | none => none

/-- `_process_forward_content` with the per-node constructor abstracted
(`createNode` is `_create_custom_node_from_data` at `depth + 1`).
Inline content is preferred; otherwise a truthy `forward_id` triggers a
fetch; every failure path yields a placeholder node instead of raising. -/
def processForwardContentWith (createNode : NodeData → Option CustomNode)
    (fetch : String → FetchResult)
    (forward_content : Option FwdContent) (forward_id : Option String) :
    List CustomNode :=
  match inlineNodes forward_content with
  | some nodes =>
    let nodes_for_alc := nodes.filterMap createNode
    if nodes_for_alc.isEmpty then
      [CustomNode.mk "0" "信息" (.strC "[嵌套转发内容为空]")]
    else nodes_for_alc
  | none =>
    if optStrTruthy forward_id then
      match fetch (forward_id.getD "") with
      | .ok fdata =>
        match shapeNodes fdata with
        | some (n :: ns) => (n :: ns).filterMap createNode
        | _ => [CustomNode.mk "0" "错误" (.strC "[嵌套转发消息获取失败]")]
      | .actionFailed => [CustomNode.mk "0" "错误" (.strC "[嵌套转发消息获取失败]")]
      | .otherError => [CustomNode.mk "0" "错误" (.strC "[处理嵌套转发时出错]")]
    else
      [CustomNode.mk "0" "错误" (.strC "[嵌套转发消息无法解析]")]

/-- Common body of the `"image"` and `"video"` branches of
`_process_v11_segment` (duplicated in the source): `url` wins, then
`file` (decoding a `base64://` payload, a failing decode raises and the
segment is dropped by the caller's try/except), else the segment is
skipped. -/
def v11MediaSeg (mk : MediaData → USeg) (d : V11Data) : List USeg :=
  if optStrTruthy d.url then [mk { url := d.url }]
  else if optStrTruthy d.file then
    let fv := d.file.getD ""
    if strStartsWith fv "base64://" then
      match b64decode (strDrop9 fv) with
      | some bs => [mk { raw := some (.rbytes bs) }]
      | none => []
    else [mk { path := some fv }]
  else []

/-- `_process_v11_segment` with the forward-resolution continuation
abstracted (`pfwd` is `_process_forward_content` at the same depth).
Unknown types and non-dict objects yield the empty result. -/
def processV11SegmentWith
    (pfwd : Option FwdContent → Option String → List CustomNode)
    (seg_obj : SegObj) : List USeg :=
  match seg_obj with
  | .dictSeg (.mk ty dat) =>
    match ty, dat with
    | some t, some d =>
      if t = "" then []
      else if t = "text" then
        let tc := d.text.getD ""
        if strStrip tc ≠ "" then [.text tc] else []
      else if t = "image" then v11MediaSeg USeg.image d
      else if t = "at" then
        let qq := d.qq.getD ""
        if strToLower qq = "all" then [.atAll]
        else if qq ≠ "" then [.at qq] else []
      else if t = "video" then v11MediaSeg USeg.video d
      else if t = "forward" then
        let fid := if optStrTruthy d.fid then d.fid else d.resid
        let nested := pfwd d.content fid
        if nested.isEmpty then [] else [.reference nested]
      else []
    | _, _ => []
  | _ => []

/-- `Image`/`Video` truthiness test in `_extract_content_from_message`:
`getattr url or getattr path or getattr raw`. -/
def mediaTruthy (d : MediaData) : Bool :=
  optStrTruthy d.url || optStrTruthy d.path || optRawTruthy d.raw

/-- The per-segment body of `_extract_content_from_message`'s loop:
recognised alconna segments are kept (subject to their truthiness
checks), everything else goes through `_process_v11_segment`. -/
def perSegObj (pv11 : SegObj → List USeg) (seg : SegObj) : List USeg :=
  match seg with
  | .alcSeg (.text t) => if strStrip t ≠ "" then [.text t] else []
  | .alcSeg (.image d) => if mediaTruthy d then [.image d] else []
  | .alcSeg (.at tg) => [.at tg]
  | .alcSeg .atAll => [.atAll]
  | .alcSeg (.video d) => if mediaTruthy d then [.video d] else []
  | other => pv11 other

/-- Worker for `_extract_content_from_message`, structurally recursive on
the remaining depth slack `3 - depth`: slack `0` is the
`depth >= MAX_FORWARD_DEPTH` guard, and nested nodes are extracted with
slack one less (the source passes `depth + 1` through
`_process_forward_content` → `_create_custom_node_from_data`). -/
def extractGo (fetch : String → FetchResult) : Nat → MsgContent → List USeg
  | 0, _ => [.text tooDeepText]
  | s + 1, mc =>
    let pv11 := processV11SegmentWith
      (processForwardContentWith (createNodeWith (extractGo fetch s)) fetch)
    match mc with
    | .mcUni segs => segs.flatMap fun sg => perSegObj pv11 (.alcSeg sg)
    | .mcV11 dicts => dicts.flatMap fun d => perSegObj pv11 (.dictSeg d)
    | .mcList items => items.flatMap fun it => perSegObj pv11 it
    | .mcDict d =>
      if d.ty.isSome && d.dat.isSome then perSegObj pv11 (.dictSeg d) else []
    | .mcStr s => if strStrip s ≠ "" then [.text s] else []
    | .mcOther _ => []

/-- `_extract_content_from_message(message_content, bot, depth)`. -/
def _extract_content_from_message (fetch : String → FetchResult)
    (message_content : MsgContent) (depth : Nat := 0) : List USeg :=
  extractGo fetch (MAX_FORWARD_DEPTH - depth) message_content

/-- `_create_custom_node_from_data(node_data, bot, depth)`: extracts the
node's payload at the node's own depth. -/
def _create_custom_node_from_data (fetch : String → FetchResult)
    (node_data : NodeData) (depth : Nat) : Option CustomNode :=
  createNodeWith (extractGo fetch (MAX_FORWARD_DEPTH - depth)) node_data

/-- `_process_forward_content(forward_content, forward_id, bot, depth)`:
nodes are built at `depth + 1`. -/
def _process_forward_content (fetch : String → FetchResult)
    (forward_content : Option FwdContent) (forward_id : Option String)
    (depth : Nat) : List CustomNode :=
  processForwardContentWith
    (createNodeWith (extractGo fetch (MAX_FORWARD_DEPTH - (depth + 1))))
    fetch forward_content forward_id

/-- `_process_v11_segment(seg_obj, depth, index, bot)` (the `index` is
only logged). -/
def _process_v11_segment (fetch : String → FetchResult) (seg_obj : SegObj)
    (depth : Nat) : List USeg :=
  processV11SegmentWith (fun fc fid => _process_forward_content fetch fc fid depth)
    seg_obj

/-! ### `broadcast_manager.py`: distribution and recall -/

/-- `GroupConsole` as the broadcast engine reads it. -/
structure Group where
  group_id : String
  channel_id : Option String := none
deriving Repr, DecidableEq

/-- The group key used by `_broadcast_normal`:
`f"{gid}:{cid}" if channel_id else str(gid)`. -/
def Group.normalKey (g : Group) : String :=
  if optStrTruthy g.channel_id then g.group_id ++ ":" ++ (g.channel_id.getD "")
  else g.group_id

/-- The group key used by `_broadcast_forward`:
`group.group_id or group.channel_id`. -/
def Group.forwardKey (g : Group) : String :=
  if g.group_id ≠ "" then g.group_id else g.channel_id.getD ""

/-- `BroadcastManager._last_broadcast_msg_ids`: a Python dict
`str → int`, insertion-ordered, updates overwrite in place. -/
abbrev MsgIdDict := List (String × Int)

/-- Python dict assignment `d[k] = v`: replace in place if the key
exists, else append. -/
def dictInsert (k : String) (v : Int) : MsgIdDict → MsgIdDict
  | [] => [(k, v)]
  | (k', v') :: rest =>
    if k' = k then (k, v) :: rest else (k', v') :: dictInsert k v rest

/-- A `message_id` value found in a send result (Python `int`, `str`, or
something else). -/
inductive IdVal where
  | intVal (n : Int)
  | strVal (s : String)
  | otherVal
deriving Repr, DecidableEq

/-- Python `int(x)` on an id value (`none` = `ValueError`/`TypeError`). -/
def IdVal.toIntOpt : IdVal → Option Int
  | .intVal n => some n
  | .strVal s => s.toInt?
  | .otherVal => none

/-- One element of `Receipt.msg_ids`. -/
inductive IdEntry where
  | eDict (message_id : Option IdVal)
  | eInt (n : Int)
  | eStr (s : String)
  | eOther
deriving Repr, DecidableEq

/-- A send result: a dict (with or without `message_id`), a `Receipt`
(with its `msg_ids` list), or something else. -/
inductive ApiResult where
  | dictRes (message_id : Option IdVal)
  | receiptRes (msg_ids : List IdEntry)
  | otherRes
deriving Repr, DecidableEq

/-- `BroadcastManager._extract_message_id_from_result`: records
`group_key → int(id)` when an id can be extracted and converted,
otherwise only logs. Returns the updated id map. -/
def _extract_message_id_from_result (result : ApiResult) (group_key : String)
    (ids : MsgIdDict) : MsgIdDict :=
  match result with
  | .dictRes (some mid) =>
    match mid.toIntOpt with
    | some n => dictInsert group_key n ids
    | none => ids
  | .dictRes none => ids
  | .receiptRes [] => ids
  | .receiptRes (first :: _) =>
    let mid : Option IdVal :=
      match first with
      | .eDict (some m) => some m
      | .eDict none => none
      | .eInt n => some (.intVal n)
      | .eStr s => some (.strVal s)
      | .eOther => none
    match mid with
    | some m =>
      match m.toIntOpt with
      | some n => dictInsert group_key n ids
      | none => ids
    | none => ids
  | .otherRes => ids

/-- Outcome of a send call: a result value, or an exception. -/
inductive SendOut where
  | sent (res : ApiResult)
  | raised
deriving Repr, DecidableEq

/-- Outcome of `PlatformUtils.get_target`: a target, `None`, or an
exception (caught by the surrounding try as an error). -/
inductive TargetOut where
  | found
  | missing
  | raised
deriving Repr, DecidableEq

/-- Outcome of the `delete_msg` call during recall. -/
inductive DeleteOut where
  | ok
  | actionFailed (retcode : Option Int) (wording : String)
  | otherExc
deriving Repr, DecidableEq

/-- Observable events of a run (network attempts and sleeps). -/
inductive Ev where
  | checkAvail (key : String)
  | sendAttempt (key : String)
  | sleepJitter (dur : Nat)
  | sleepFixed
  | deleteCall (key : String) (mid : Int)
deriving Repr, DecidableEq

/-- `random.randint(lo, hi)` driven by an entropy value `r`: always lands
in `[lo, hi]`. -/
def randint (lo hi r : Nat) : Nat := lo + r % (hi + 1 - lo)

/-- The injected collaborators of the distribution/recall engine. -/
structure Env where
  platform : String
  isV11 : Bool
  selfId : String
  allGroups : List Group
  id2 : Option String
  blocked : String → Bool
  targetRes : Group → TargetOut
  sendNormal : Group → SendOut
  sendForward : Group → SendOut
  delete : String → Int → DeleteOut
  rand : String → Nat

/-- `BroadcastManager._check_group_availability`: a group with a falsy
`group_id` or with the broadcast task blocked is unavailable. -/
def _check_group_availability (env : Env) (g : Group) : Bool :=
  g.group_id ≠ "" && !env.blocked g.group_id

/-- Accumulated state of a per-target loop. -/
structure BState where
  succ : Nat := 0
  err : Nat := 0
  skip : Nat := 0
  ids : MsgIdDict := []
  trace : List Ev := []

/-- One iteration of `_broadcast_normal`'s loop. -/
def bnStep (env : Env) (st : BState) (g : Group) : BState :=
  let key := g.normalKey
  let st := { st with trace := st.trace ++ [Ev.checkAvail key] }
  if !_check_group_availability env g then { st with skip := st.skip + 1 }
  else
    match env.targetRes g with
    | .missing => { st with skip := st.skip + 1 }
    | .raised => { st with err := st.err + 1 }
    | .found =>
      match env.sendNormal g with
      | .sent res =>
        { st with
          succ := st.succ + 1
          ids := _extract_message_id_from_result res key st.ids
          trace := st.trace ++
            [Ev.sendAttempt key, Ev.sleepJitter (randint 1 3 (env.rand key))] }
      | .raised =>
        { st with err := st.err + 1, trace := st.trace ++ [Ev.sendAttempt key] }

/-- One iteration of `_broadcast_forward`'s loop (no target resolution;
the send goes through `bot.send_group_forward_msg`). -/
def bfStep (env : Env) (st : BState) (g : Group) : BState :=
  let key := g.forwardKey
  let st := { st with trace := st.trace ++ [Ev.checkAvail key] }
  if !_check_group_availability env g then { st with skip := st.skip + 1 }
  else
    match env.sendForward g with
    | .sent res =>
      { st with
        succ := st.succ + 1
        ids := _extract_message_id_from_result res key st.ids
        trace := st.trace ++
          [Ev.sendAttempt key, Ev.sleepJitter (randint 1 3 (env.rand key))] }
    | .raised =>
      { st with err := st.err + 1, trace := st.trace ++ [Ev.sendAttempt key] }

/-- `BroadcastManager._broadcast_normal(bot, session, group_list, message)`
starting from the current id map `ids0` (counters start at zero). -/
def _broadcast_normal (env : Env) (group_list : List Group)
    (ids0 : MsgIdDict) : BState :=
  group_list.foldl (bnStep env) { ids := ids0 }

/-- `BroadcastManager._broadcast_forward(bot, session, group_list, nodes)`
starting from the current id map `ids0`. -/
def _broadcast_forward (env : Env) (group_list : List Group)
    (ids0 : MsgIdDict) : BState :=
  group_list.foldl (bfStep env) { ids := ids0 }

/-- `any(isinstance(seg, Reference) and seg.nodes for seg in message)`. -/
def isForwardBroadcast (message : List USeg) : Bool :=
  message.any fun s =>
    match s with
    | .reference nodes => !nodes.isEmpty
    | _ => false

/-- The V11 forward-node list `send_to_specific_groups` constructs on the
qq/V11 forward path: a single `Reference` message converts its nodes
directly; a mixed message is flattened into one node authored by the bot
(empty when the flattened content list is empty). -/
def buildV11Nodes (env : Env) (message : List USeg) : List V11Node :=
  match message with
  | [.reference nodes] =>
    if !nodes.isEmpty then custom_nodes_to_v11_nodes nodes
    else flattenNodes env message
  | _ => flattenNodes env message
where
  flattenNodes (env : Env) (message : List USeg) : List V11Node :=
    let v11_content_list := uni_message_to_v11_list_of_dicts (.uniC message)
    if !v11_content_list.isEmpty then
      [⟨env.selfId, "广播", v11_content_list⟩]
    else []

/-- Result of `send_to_specific_groups`: the returned
`(success_count, error_count)` pair, the id map after the call, and the
observable trace. -/
structure SendRun where
  success : Nat
  error : Nat
  ids : MsgIdDict
  trace : List Ev
deriving DecidableEq

/-- `BroadcastManager.send_to_specific_groups(bot, message, target_groups,
session)`: empty target list returns `(0, 0)`; on the qq/V11 forward path
an empty constructed node list returns `(0, len(targets))` without
touching any target; otherwise the matching per-target loop runs. The id
map is *not* cleared here — callers do that. -/
def send_to_specific_groups (env : Env) (message : List USeg)
    (target_groups : List Group) (ids0 : MsgIdDict) : SendRun :=
  if target_groups.isEmpty then ⟨0, 0, ids0, []⟩
  else
    if env.platform = "qq" && env.isV11 && isForwardBroadcast message then
      let v11_nodes := buildV11Nodes env message
      if v11_nodes.isEmpty then ⟨0, target_groups.length, ids0, []⟩
      else
        let st := _broadcast_forward env target_groups ids0
        ⟨st.succ, st.err, st.ids, st.trace⟩
    else
      let st := _broadcast_normal env target_groups ids0
      ⟨st.succ, st.err, st.ids, st.trace⟩

/-- `BroadcastManager.send(bot, message, session)`: clears the id map,
fetches all groups, and distributes (`ids0` is the pre-existing map,
discarded by `clear_last_broadcast_msg_ids`). -/
def sendBroadcast (env : Env) (message : List USeg) (_ids0 : MsgIdDict) :
    SendRun :=
  send_to_specific_groups env message env.allGroups []

/-- `message_processor.send_broadcast_and_notify(...)`: clears the id map
then distributes to the enabled groups. -/
def send_broadcast_and_notify (env : Env) (message : List USeg)
    (enabled_groups : List Group) (_ids0 : MsgIdDict) : SendRun :=
  send_to_specific_groups env message enabled_groups []

/-- Python `needle in haystack` on strings, over character lists. -/
def infixOfB (needle : List Char) : List Char → Bool
  | [] => needle.isEmpty
  | c :: rest => needle.isPrefixOf (c :: rest) || infixOfB needle rest

/-- The benign-failure test of `recall_last_broadcast`: retcode 100 with
`MESSAGE_NOT_FOUND` in the upper-cased wording, or retcode 300 with
`delete message` in the lower-cased wording. -/
def benignRecallFailure (retcode : Option Int) (wording : String) : Bool :=
  (retcode = some 100 &&
    infixOfB "MESSAGE_NOT_FOUND".toList (strToUpper wording).toList) ||
  (retcode = some 300 &&
    infixOfB "delete message".toList (strToLower wording).toList)

/-- Classification of one delete outcome (0 success, 1 benign, 2 error). -/
def deleteClass : DeleteOut → Nat
  | .ok => 0
  | .actionFailed rc w => if benignRecallFailure rc w then 1 else 2
  | .otherExc => 2

/-- The loop of `recall_last_broadcast`: one `delete_msg` call and a
fixed 0.2s sleep per recorded id; benign failures are only logged. -/
def recallLoop (env : Env) :
    MsgIdDict → Nat × Nat × List Ev → Nat × Nat × List Ev
  | [], acc => acc
  | (key, mid) :: rest, (s, e, tr) =>
    let out := env.delete key mid
    let s := if deleteClass out = 0 then s + 1 else s
    let e := if deleteClass out = 2 then e + 1 else e
    recallLoop env rest (s, e, tr ++ [Ev.deleteCall key mid, Ev.sleepFixed])

/-- `BroadcastManager.recall_last_broadcast(bot, session)`: empty map
returns `(0, 0)` at once; otherwise every record is replayed as a delete
call and the map is cleared afterwards. Returns
`((success, error), final map, trace)`. -/
def recall_last_broadcast (env : Env) (ids : MsgIdDict) :
    (Nat × Nat) × MsgIdDict × List Ev :=
  if ids.isEmpty then ((0, 0), ids, [])
  else
    let (s, e, tr) := recallLoop env ids (0, 0, [])
    ((s, e), [], tr)

/-- `message_processor.get_broadcast_target_groups(bot, session)`:
removes every group whose `group_id` equals the originating group id
(when the session carries a truthy `id2`), then filters by the broadcast
block flag. Returns `(target_groups, enabled_groups)`. -/
def get_broadcast_target_groups (env : Env) : List Group × List Group :=
  let current_group_id : Option String :=
    match env.id2 with
    | some c => if c ≠ "" then some c else none
    | none => none
  let target_groups :=
    match current_group_id with
    | some c => env.allGroups.filter fun (g : Group) => g.group_id ≠ c
    | none => env.allGroups
  if target_groups.isEmpty then ([], [])
  else
    let enabled_groups := target_groups.filter fun (g : Group) => !env.blocked g.group_id
    if enabled_groups.isEmpty then (target_groups, [])
    else (target_groups, enabled_groups)

/-! ## Helper lemmas -/

/-- Each iteration of `_broadcast_normal`'s loop increments exactly one
of the three counters. -/
theorem bnStep_counts (env : Env) (st : BState) (g : Group) :
    (bnStep env st g).succ + (bnStep env st g).err + (bnStep env st g).skip
      = st.succ + st.err + st.skip + 1 := by
  unfold bnStep
  by_cases h3 : _check_group_availability env g <;>
    cases h : env.targetRes g <;> cases h2 : env.sendNormal g <;>
      simp [h, h2, h3] <;> omega

/-- Each iteration of `_broadcast_forward`'s loop increments exactly one
of the three counters. -/
theorem bfStep_counts (env : Env) (st : BState) (g : Group) :
    (bfStep env st g).succ + (bfStep env st g).err + (bfStep env st g).skip
      = st.succ + st.err + st.skip + 1 := by
  unfold bfStep
  by_cases h3 : _check_group_availability env g <;>
    cases h2 : env.sendForward g <;> simp [h2, h3] <;> omega

theorem bnFold_counts (env : Env) (gl : List Group) :
    ∀ st : BState,
      (gl.foldl (bnStep env) st).succ + (gl.foldl (bnStep env) st).err
          + (gl.foldl (bnStep env) st).skip
        = st.succ + st.err + st.skip + gl.length := by
  induction gl with
  | nil => intro st; simp
  | cons g rest ih =>
    intro st
    simp only [List.foldl_cons, List.length_cons]
    rw [ih]
    have := bnStep_counts env st g
    omega

theorem bfFold_counts (env : Env) (gl : List Group) :
    ∀ st : BState,
      (gl.foldl (bfStep env) st).succ + (gl.foldl (bfStep env) st).err
          + (gl.foldl (bfStep env) st).skip
        = st.succ + st.err + st.skip + gl.length := by
  induction gl with
  | nil => intro st; simp
  | cons g rest ih =>
    intro st
    simp only [List.foldl_cons, List.length_cons]
    rw [ih]
    have := bfStep_counts env st g
    omega

/-! ## Claims -/

/-- **C1.** For every target list and message, a distribution run returns
counts with `successCount + errorCount + skipCount` equal to the number
of targets: each iteration of the per-target loop (`_broadcast_normal`
and `_broadcast_forward` alike) increments exactly one of the three
counters. -/
theorem distribution_counts_partition (env : Env) (gl : List Group)
    (ids0 : MsgIdDict) :
    ((_broadcast_normal env gl ids0).succ + (_broadcast_normal env gl ids0).err
        + (_broadcast_normal env gl ids0).skip = gl.length) ∧
    ((_broadcast_forward env gl ids0).succ + (_broadcast_forward env gl ids0).err
        + (_broadcast_forward env gl ids0).skip = gl.length) := by
  constructor
  · have := bnFold_counts env gl { ids := ids0 }
    simpa [_broadcast_normal] using this
  · have := bfFold_counts env gl { ids := ids0 }
    simpa [_broadcast_forward] using this

/-- **C2.** For every input content and every recursion depth `d ≥ 3`,
the forward-content extractor returns exactly one placeholder text
segment (the "nested forward too deep" text) without recursing,
regardless of what the input contains. -/
theorem extract_depth_capped (fetch : String → FetchResult)
    (mc : MsgContent) (d : Nat) (h : MAX_FORWARD_DEPTH ≤ d) :
    _extract_content_from_message fetch mc d = [USeg.text tooDeepText] := by
  unfold _extract_content_from_message
  have h0 : MAX_FORWARD_DEPTH - d = 0 := Nat.sub_eq_zero_of_le h
  rw [h0]
  rfl

/-- Witness for C2 at depth 3 on a concrete content value. -/
theorem extract_depth_capped_witness :
    MAX_FORWARD_DEPTH ≤ 3 ∧
      _extract_content_from_message (fun _ => FetchResult.actionFailed)
        (.mcStr "hello") 3 = [USeg.text tooDeepText] :=
  ⟨by decide,
    extract_depth_capped (fun _ => FetchResult.actionFailed) (.mcStr "hello") 3
      (by decide)⟩

/-- Number of `delete_msg` calls in a trace. -/
def countDeleteCalls (tr : List Ev) : Nat :=
  tr.countP fun e => match e with | .deleteCall _ _ => true | _ => false

/-- Number of jittered sleeps in a trace. -/
def countJitterSleeps (tr : List Ev) : Nat :=
  tr.countP fun e => match e with | .sleepJitter _ => true | _ => false

/-- Number of send attempts in a trace. -/
def countSendAttempts (tr : List Ev) : Nat :=
  tr.countP fun e => match e with | .sendAttempt _ => true | _ => false

/-- The durations of the jittered sleeps of a trace, in order. -/
def jitterDurs (tr : List Ev) : List Nat :=
  tr.filterMap fun e => match e with | .sleepJitter d => some d | _ => none

theorem recallLoop_spec (env : Env) :
    ∀ (l : MsgIdDict) (s e : Nat) (tr : List Ev),
      recallLoop env l (s, e, tr)
        = (s + l.countP (fun r => deleteClass (env.delete r.1 r.2) == 0),
           e + l.countP (fun r => deleteClass (env.delete r.1 r.2) == 2),
           tr ++ l.flatMap fun r => [Ev.deleteCall r.1 r.2, Ev.sleepFixed]) := by
  intro l
  induction l with
  | nil => intro s e tr; simp [recallLoop]
  | cons r rest ih =>
    intro s e tr
    obtain ⟨key, mid⟩ := r
    simp only [recallLoop]
    rw [ih]
    by_cases h0 : deleteClass (env.delete key mid) = 0 <;>
      by_cases h2 : deleteClass (env.delete key mid) = 2 <;>
        simp [h0, h2, List.countP_cons] <;> omega

/-- **C8.** During recall, a delete call whose failure matches the
"already gone / not found" pattern (`deleteClass` 1, i.e.
`benignRecallFailure`) increments neither `successCount` nor
`errorCount`; successes are exactly the class-0 outcomes and errors
exactly the class-2 (non-benign failure) outcomes. -/
theorem recall_benign_skip_counting (env : Env) (ids : MsgIdDict) :
    (recall_last_broadcast env ids).1.1
        = ids.countP (fun r => deleteClass (env.delete r.1 r.2) == 0) ∧
      (recall_last_broadcast env ids).1.2
        = ids.countP (fun r => deleteClass (env.delete r.1 r.2) == 2) := by
  unfold recall_last_broadcast
  by_cases h : ids.isEmpty
  · rw [List.isEmpty_iff] at h
    subst h
    simp
  · simp only [h, Bool.false_eq_true, if_false, recallLoop_spec]
    constructor <;> simp

/-- Environment for the C3 counterexample: the lone target's send
succeeds but its result carries no extractable message id. -/
def envC3 : Env where
  platform := "other"
  isV11 := false
  selfId := "self"
  allGroups := [⟨"1", none⟩]
  id2 := none
  blocked := fun _ => false
  targetRes := fun _ => .found
  sendNormal := fun _ => .sent .otherRes
  sendForward := fun _ => .raised
  delete := fun _ _ => .ok
  rand := fun _ => 0

/-- **C3 counterexample.** A distribution run over one target counts one
success, yet the subsequent recall issues zero delete calls (the success
recorded no id), refuting "exactly N delete calls for N successes". -/
theorem recall_call_count_counterexample :
    (send_to_specific_groups envC3 [USeg.text "hi"] [⟨"1", none⟩] []).success = 1 ∧
      countDeleteCalls
        (recall_last_broadcast envC3
          (send_to_specific_groups envC3 [USeg.text "hi"] [⟨"1", none⟩] []).ids).2.2
        = 0 ∧
      (0 : Nat) ≠ 1 := by
  refine ⟨rfl, rfl, by decide⟩

theorem dictInsert_length_le (k : String) (v : Int) :
    ∀ d : MsgIdDict, (dictInsert k v d).length ≤ d.length + 1 := by
  intro d
  induction d with
  | nil => simp [dictInsert]
  | cons p rest ih =>
    obtain ⟨k', v'⟩ := p
    by_cases h : k' = k <;> simp [dictInsert, h] <;> omega

theorem extract_id_length_le (res : ApiResult) (key : String) (d : MsgIdDict) :
    (_extract_message_id_from_result res key d).length ≤ d.length + 1 := by
  have hins : ∀ n : Int, (dictInsert key n d).length ≤ d.length + 1 :=
    fun n => dictInsert_length_le key n d
  unfold _extract_message_id_from_result
  rcases res with mid | entries | _
  · rcases mid with _ | mid
    · simp
    · rcases h : mid.toIntOpt with _ | n <;> simp [h, hins]
  · rcases entries with _ | ⟨first, rest⟩
    · simp
    · rcases first with mid | n | s | _
      · rcases mid with _ | m
        · simp
        · rcases h : m.toIntOpt with _ | n <;> simp [h, hins]
      · simp [IdVal.toIntOpt, hins]
      · dsimp only [IdVal.toIntOpt]
        rcases h : s.toInt? with _ | n <;> simp [h, hins]
      · simp
  · simp

theorem bnStep_ids_growth (env : Env) (st : BState) (g : Group) :
    (bnStep env st g).ids.length + st.succ
      ≤ st.ids.length + (bnStep env st g).succ := by
  unfold bnStep
  by_cases h3 : _check_group_availability env g <;>
    cases h : env.targetRes g <;> cases h2 : env.sendNormal g <;>
      simp [h, h2, h3]
  all_goals
    rename_i res
    have := extract_id_length_le res g.normalKey st.ids
    omega

theorem bfStep_ids_growth (env : Env) (st : BState) (g : Group) :
    (bfStep env st g).ids.length + st.succ
      ≤ st.ids.length + (bfStep env st g).succ := by
  unfold bfStep
  by_cases h3 : _check_group_availability env g <;>
    cases h2 : env.sendForward g <;> simp [h2, h3]
  all_goals
    rename_i res
    have := extract_id_length_le res g.forwardKey st.ids
    omega

theorem bnFold_ids_growth (env : Env) (gl : List Group) :
    ∀ st : BState,
      (gl.foldl (bnStep env) st).ids.length + st.succ
        ≤ st.ids.length + (gl.foldl (bnStep env) st).succ := by
  induction gl with
  | nil => intro st; simp
  | cons g rest ih =>
    intro st
    simp only [List.foldl_cons]
    have h1 := bnStep_ids_growth env st g
    have h2 := ih (bnStep env st g)
    omega

theorem bfFold_ids_growth (env : Env) (gl : List Group) :
    ∀ st : BState,
      (gl.foldl (bfStep env) st).ids.length + st.succ
        ≤ st.ids.length + (gl.foldl (bfStep env) st).succ := by
  induction gl with
  | nil => intro st; simp
  | cons g rest ih =>
    intro st
    simp only [List.foldl_cons]
    have h1 := bfStep_ids_growth env st g
    have h2 := ih (bfStep env st g)
    omega

theorem countDeleteCalls_flatMap (l : MsgIdDict) :
    countDeleteCalls (l.flatMap fun r => [Ev.deleteCall r.1 r.2, Ev.sleepFixed])
      = l.length := by
  induction l with
  | nil => simp [countDeleteCalls]
  | cons r rest ih =>
    simp [countDeleteCalls, List.countP_cons] at ih ⊢
    omega

/-- **C3 (amended).** Recall issues exactly one delete call per entry of
the DeliveryRecord map and leaves the map empty; a distribution run
grows the map by at most its success count (a success whose result
yields no extractable id records nothing, so the number of delete calls
can be strictly below N). -/
theorem recall_one_delete_per_record (env : Env) (ids : MsgIdDict)
    (gl : List Group) (ids0 : MsgIdDict) :
    countDeleteCalls (recall_last_broadcast env ids).2.2 = ids.length ∧
      (recall_last_broadcast env ids).2.1 = [] ∧
      (_broadcast_normal env gl ids0).ids.length
          ≤ ids0.length + (_broadcast_normal env gl ids0).succ ∧
      (_broadcast_forward env gl ids0).ids.length
          ≤ ids0.length + (_broadcast_forward env gl ids0).succ := by
  refine ⟨?_, ?_, ?_, ?_⟩
  · unfold recall_last_broadcast
    by_cases h : ids.isEmpty
    · rw [List.isEmpty_iff] at h
      subst h
      simp [countDeleteCalls]
    · simp only [h, Bool.false_eq_true, if_false, recallLoop_spec]
      simpa using countDeleteCalls_flatMap ids
  · unfold recall_last_broadcast
    by_cases h : ids.isEmpty
    · rw [List.isEmpty_iff] at h
      subst h
      simp
    · simp [h]
  · have := bnFold_ids_growth env gl { ids := ids0 }
    simpa [_broadcast_normal] using this
  · have := bfFold_ids_growth env gl { ids := ids0 }
    simpa [_broadcast_forward] using this

/-- A jitter duration within the `random.randint(1, 3)` bounds. -/
def jitterInRange (d : Nat) : Bool := decide (1 ≤ d) && decide (d ≤ 3)

theorem randint_in_range (r : Nat) : jitterInRange (randint 1 3 r) = true := by
  have : r % 3 < 3 := Nat.mod_lt r (by omega)
  simp only [jitterInRange, randint, Bool.and_eq_true, decide_eq_true_eq]
  omega

theorem bnStep_sleeps (env : Env) (st : BState) (g : Group) :
    countJitterSleeps (bnStep env st g).trace + st.succ
      = countJitterSleeps st.trace + (bnStep env st g).succ := by
  unfold bnStep
  by_cases h3 : _check_group_availability env g <;>
    cases h : env.targetRes g <;> cases h2 : env.sendNormal g <;>
      simp [h, h2, h3, countJitterSleeps, List.countP_append] <;> omega

theorem bfStep_sleeps (env : Env) (st : BState) (g : Group) :
    countJitterSleeps (bfStep env st g).trace + st.succ
      = countJitterSleeps st.trace + (bfStep env st g).succ := by
  unfold bfStep
  by_cases h3 : _check_group_availability env g <;>
    cases h2 : env.sendForward g <;>
      simp [h2, h3, countJitterSleeps, List.countP_append] <;> omega

theorem jitterDurs_append (a b : List Ev) :
    (jitterDurs (a ++ b)).all jitterInRange
      = ((jitterDurs a).all jitterInRange && (jitterDurs b).all jitterInRange) := by
  simp [jitterDurs, List.filterMap_append]

theorem jitterDurs_check (k : String) :
    (jitterDurs [Ev.checkAvail k]).all jitterInRange = true := by
  simp [jitterDurs]

theorem jitterDurs_send (k : String) :
    (jitterDurs [Ev.sendAttempt k]).all jitterInRange = true := by
  simp [jitterDurs]

theorem jitterDurs_send_sleep (k : String) (d : Nat) :
    (jitterDurs [Ev.sendAttempt k, Ev.sleepJitter d]).all jitterInRange
      = jitterInRange d := by
  simp [jitterDurs]

theorem bnStep_durs (env : Env) (st : BState) (g : Group)
    (h : (jitterDurs st.trace).all jitterInRange = true) :
    (jitterDurs (bnStep env st g).trace).all jitterInRange = true := by
  unfold bnStep
  by_cases h3 : _check_group_availability env g <;>
    cases ht : env.targetRes g <;> cases h2 : env.sendNormal g <;>
      simp [ht, h2, h3, jitterDurs_append, jitterDurs_check, jitterDurs_send,
        jitterDurs_send_sleep, h, randint_in_range]
  all_goals simp [jitterDurs, randint_in_range]

theorem bfStep_durs (env : Env) (st : BState) (g : Group)
    (h : (jitterDurs st.trace).all jitterInRange = true) :
    (jitterDurs (bfStep env st g).trace).all jitterInRange = true := by
  unfold bfStep
  by_cases h3 : _check_group_availability env g <;>
    cases h2 : env.sendForward g <;>
      simp [h2, h3, jitterDurs_append, jitterDurs_check, jitterDurs_send,
        jitterDurs_send_sleep, h, randint_in_range]
  all_goals simp [jitterDurs, randint_in_range]

theorem bnFold_sleeps (env : Env) (gl : List Group) :
    ∀ st : BState,
      countJitterSleeps (gl.foldl (bnStep env) st).trace + st.succ
        = countJitterSleeps st.trace + (gl.foldl (bnStep env) st).succ := by
  induction gl with
  | nil => intro st; simp
  | cons g rest ih =>
    intro st
    simp only [List.foldl_cons]
    have h1 := bnStep_sleeps env st g
    have h2 := ih (bnStep env st g)
    omega

theorem bfFold_sleeps (env : Env) (gl : List Group) :
    ∀ st : BState,
      countJitterSleeps (gl.foldl (bfStep env) st).trace + st.succ
        = countJitterSleeps st.trace + (gl.foldl (bfStep env) st).succ := by
  induction gl with
  | nil => intro st; simp
  | cons g rest ih =>
    intro st
    simp only [List.foldl_cons]
    have h1 := bfStep_sleeps env st g
    have h2 := ih (bfStep env st g)
    omega

theorem bnFold_durs (env : Env) (gl : List Group) :
    ∀ st : BState, (jitterDurs st.trace).all jitterInRange = true →
      (jitterDurs (gl.foldl (bnStep env) st).trace).all jitterInRange = true := by
  induction gl with
  | nil => intro st h; simpa using h
  | cons g rest ih =>
    intro st h
    simp only [List.foldl_cons]
    exact ih (bnStep env st g) (bnStep_durs env st g h)

theorem bfFold_durs (env : Env) (gl : List Group) :
    ∀ st : BState, (jitterDurs st.trace).all jitterInRange = true →
      (jitterDurs (gl.foldl (bfStep env) st).trace).all jitterInRange = true := by
  induction gl with
  | nil => intro st h; simpa using h
  | cons g rest ih =>
    intro st h
    simp only [List.foldl_cons]
    exact ih (bfStep env st g) (bfStep_durs env st g h)

/-- Environment for the C5 counterexample: the lone target's send raises
a transport error. -/
def envC5 : Env where
  platform := "other"
  isV11 := false
  selfId := "self"
  allGroups := [⟨"1", none⟩]
  id2 := none
  blocked := fun _ => false
  targetRes := fun _ => .found
  sendNormal := fun _ => .raised
  sendForward := fun _ => .raised
  delete := fun _ _ => .ok
  rand := fun _ => 0

/-- **C5 counterexample.** A run whose single attempted send raises
performs one send attempt but zero jittered sleeps: pacing is *not*
unconditional on attempted sends. -/
theorem pacing_counterexample :
    countSendAttempts (_broadcast_normal envC5 [⟨"1", none⟩] []).trace = 1 ∧
      countJitterSleeps (_broadcast_normal envC5 [⟨"1", none⟩] []).trace = 0 :=
  ⟨rfl, rfl⟩

/-- **C5 (amended).** In both per-target loops a jittered sleep of
uniformly random 1–3 time units follows every *successful* send (exactly
one sleep per success, each duration within `[1, 3]`); a send that raises
proceeds to the next target without sleeping. -/
theorem pacing_follows_successes_only (env : Env) (gl : List Group)
    (ids0 : MsgIdDict) :
    (countJitterSleeps (_broadcast_normal env gl ids0).trace
          = (_broadcast_normal env gl ids0).succ
        ∧ (jitterDurs (_broadcast_normal env gl ids0).trace).all jitterInRange
          = true)
      ∧ (countJitterSleeps (_broadcast_forward env gl ids0).trace
          = (_broadcast_forward env gl ids0).succ
        ∧ (jitterDurs (_broadcast_forward env gl ids0).trace).all jitterInRange
          = true) := by
  refine ⟨⟨?_, ?_⟩, ⟨?_, ?_⟩⟩
  · have := bnFold_sleeps env gl { ids := ids0 }
    simpa [_broadcast_normal, countJitterSleeps] using this
  · exact bnFold_durs env gl { ids := ids0 } (by simp [jitterDurs])
  · have := bfFold_sleeps env gl { ids := ids0 }
    simpa [_broadcast_forward, countJitterSleeps] using this
  · exact bfFold_durs env gl { ids := ids0 } (by simp [jitterDurs])

theorem dictInsert_keys (k : String) (v : Int) :
    ∀ (d : MsgIdDict), ∀ kv ∈ dictInsert k v d, kv.1 = k ∨ kv ∈ d := by
  intro d
  induction d with
  | nil => intro kv h; simp [dictInsert] at h; simp [h]
  | cons p rest ih =>
    obtain ⟨k', v'⟩ := p
    intro kv h
    by_cases he : k' = k
    · simp [dictInsert, he] at h
      rcases h with h | h
      · simp [h]
      · simp [h]
    · simp [dictInsert, he] at h
      rcases h with h | h
      · simp [h]
      · rcases ih kv h with h' | h'
        · simp [h']
        · simp [h']

theorem extract_id_keys (res : ApiResult) (key : String) (d : MsgIdDict) :
    ∀ kv ∈ _extract_message_id_from_result res key d, kv.1 = key ∨ kv ∈ d := by
  intro kv
  unfold _extract_message_id_from_result
  rcases res with mid | entries | _
  · rcases mid with _ | mid
    · intro h; simp [h]
    · rcases h : mid.toIntOpt with _ | n <;> simp only [h]
      · intro h'; simp [h']
      · exact dictInsert_keys key n d kv
  · rcases entries with _ | ⟨first, rest⟩
    · intro h; simp [h]
    · rcases first with emid | n | s | _ <;> dsimp only
      · rcases emid with _ | m
        · intro h; simp [h]
        · rcases h : m.toIntOpt with _ | n <;> simp only [h]
          · intro h'; simp [h']
          · exact dictInsert_keys key n d kv
      · simp only [IdVal.toIntOpt]
        exact dictInsert_keys key n d kv
      · simp only [IdVal.toIntOpt]
        rcases h : s.toInt? with _ | n <;> simp only [h]
        · intro h'; simp [h']
        · exact dictInsert_keys key n d kv
      · intro h; simp [h]
  · intro h; simp [h]

theorem bnStep_keys (env : Env) (st : BState) (g : Group) :
    ∀ kv ∈ (bnStep env st g).ids, kv.1 = g.normalKey ∨ kv ∈ st.ids := by
  intro kv
  unfold bnStep
  by_cases h3 : _check_group_availability env g <;>
    cases ht : env.targetRes g <;> cases h2 : env.sendNormal g <;>
      simp [ht, h2, h3]
  all_goals
    intro h
    first
      | exact Or.inr h
      | (rename_i res
         exact extract_id_keys res g.normalKey st.ids kv h)

theorem bfStep_keys (env : Env) (st : BState) (g : Group) :
    ∀ kv ∈ (bfStep env st g).ids, kv.1 = g.forwardKey ∨ kv ∈ st.ids := by
  intro kv
  unfold bfStep
  by_cases h3 : _check_group_availability env g <;>
    cases h2 : env.sendForward g <;> simp [h2, h3]
  all_goals
    intro h
    first
      | exact Or.inr h
      | (rename_i res
         exact extract_id_keys res g.forwardKey st.ids kv h)

theorem bnFold_keys (env : Env) (gl : List Group) :
    ∀ (st : BState), ∀ kv ∈ (gl.foldl (bnStep env) st).ids,
      (∃ g ∈ gl, kv.1 = g.normalKey) ∨ kv ∈ st.ids := by
  induction gl with
  | nil => intro st kv h; simp at h ⊢; exact h
  | cons g rest ih =>
    intro st kv h
    simp only [List.foldl_cons] at h
    rcases ih (bnStep env st g) kv h with h' | h'
    · obtain ⟨g', hg', hk⟩ := h'
      exact Or.inl ⟨g', by simp [hg'], hk⟩
    · rcases bnStep_keys env st g kv h' with h'' | h''
      · exact Or.inl ⟨g, by simp, h''⟩
      · exact Or.inr h''

theorem bfFold_keys (env : Env) (gl : List Group) :
    ∀ (st : BState), ∀ kv ∈ (gl.foldl (bfStep env) st).ids,
      (∃ g ∈ gl, kv.1 = g.forwardKey) ∨ kv ∈ st.ids := by
  induction gl with
  | nil => intro st kv h; simp at h ⊢; exact h
  | cons g rest ih =>
    intro st kv h
    simp only [List.foldl_cons] at h
    rcases ih (bfStep env st g) kv h with h' | h'
    · obtain ⟨g', hg', hk⟩ := h'
      exact Or.inl ⟨g', by simp [hg'], hk⟩
    · rcases bfStep_keys env st g kv h' with h'' | h''
      · exact Or.inl ⟨g, by simp, h''⟩
      · exact Or.inr h''

/-- Environment for the C6 counterexample: the lone target's send
succeeds with message id 7. -/
def envC6 : Env where
  platform := "other"
  isV11 := false
  selfId := "self"
  allGroups := [⟨"1", none⟩]
  id2 := none
  blocked := fun _ => false
  targetRes := fun _ => .found
  sendNormal := fun _ => .sent (.dictRes (some (.intVal 7)))
  sendForward := fun _ => .raised
  delete := fun _ _ => .ok
  rand := fun _ => 0

/-- **C6 counterexample.** The distribution operation
(`send_to_specific_groups`) does not clear the DeliveryRecord map at its
start: invoked while a stale record `("999", 5)` from a prior broadcast
is present, that record survives alongside the new one. -/
theorem distribution_keeps_stale_records_counterexample :
    (send_to_specific_groups envC6 [USeg.text "hi"] [⟨"1", none⟩]
        [("999", 5)]).ids = [("999", 5), ("1", 7)] ∧
      ("999", (5 : Int)) ∈ (send_to_specific_groups envC6 [USeg.text "hi"]
        [⟨"1", none⟩] [("999", 5)]).ids :=
  ⟨rfl, by decide⟩

/-- **C6 (amended).** `send_to_specific_groups` itself never clears the
map; instead both in-repo entry points (`BroadcastManager.send` and
`send_broadcast_and_notify`) clear it immediately before distributing, so
along those paths the resulting map is independent of any prior map, and
every record in it is keyed by one of the current targets — records from
a prior broadcast never survive an entry-point broadcast. -/
theorem entry_points_clear_before_distribution (env : Env)
    (message : List USeg) (enabled : List Group) (ids0 ids0' : MsgIdDict) :
    sendBroadcast env message ids0 = sendBroadcast env message ids0' ∧
      send_broadcast_and_notify env message enabled ids0
          = send_broadcast_and_notify env message enabled ids0' ∧
      ∀ kv ∈ (send_broadcast_and_notify env message enabled ids0).ids,
        ∃ g ∈ enabled, kv.1 = g.normalKey ∨ kv.1 = g.forwardKey := by
  refine ⟨rfl, rfl, ?_⟩
  intro kv h
  unfold send_broadcast_and_notify send_to_specific_groups at h
  by_cases h1 : enabled.isEmpty
  · simp [h1] at h
  · simp only [h1, Bool.false_eq_true, if_false] at h
    by_cases h2 : (decide (env.platform = "qq") && env.isV11
        && isForwardBroadcast message) = true
    · rw [if_pos h2] at h
      by_cases h3 : (buildV11Nodes env message).isEmpty
      · simp [h3] at h
      · simp only [h3, Bool.false_eq_true, if_false] at h
        have := bfFold_keys env enabled { ids := [] } kv
          (by simpa [_broadcast_forward] using h)
        rcases this with ⟨g, hg, hk⟩ | habs
        · exact ⟨g, hg, Or.inr hk⟩
        · simp at habs
    · rw [if_neg h2] at h
      have := bnFold_keys env enabled { ids := [] } kv
        (by simpa [_broadcast_normal] using h)
      rcases this with ⟨g, hg, hk⟩ | habs
      · exact ⟨g, hg, Or.inl hk⟩
      · simp at habs

/-- Witness for C6 (amended): in a concrete entry-point run the recorded
pair `("1", 7)` is keyed by the (only) current target. -/
theorem entry_points_clear_before_distribution_witness :
    ∃ g ∈ [(⟨"1", none⟩ : Group)],
      (("1", (7 : Int)) : String × Int).1 = g.normalKey
        ∨ (("1", (7 : Int)) : String × Int).1 = g.forwardKey :=
  (entry_points_clear_before_distribution envC6 [USeg.text "hi"]
      [⟨"1", none⟩] [("999", 5)] []).2.2 ("1", 7) (by decide)

theorem countP_split {α : Type} (p : α → Bool) :
    ∀ l : List α, l.countP p + l.countP (fun a => !p a) = l.length := by
  intro l
  induction l with
  | nil => simp
  | cons a rest ih =>
    by_cases h : p a <;> simp [List.countP_cons, h] <;> omega

/-- Environment for the C7 counterexample: the excluded group id occurs
twice in the candidate list. -/
def envC7 : Env where
  platform := "other"
  isV11 := false
  selfId := "self"
  allGroups := [⟨"1", none⟩, ⟨"1", none⟩]
  id2 := some "1"
  blocked := fun _ => false
  targetRes := fun _ => .found
  sendNormal := fun _ => .raised
  sendForward := fun _ => .raised
  delete := fun _ _ => .ok
  rand := fun _ => 0

/-- **C7 counterexample.** With the excluded target's id occurring twice
among the candidates, resolution removes *all* occurrences: the result
has size 0, not `|T| - 1 = 1`. -/
theorem target_resolution_counterexample :
    envC7.allGroups.length = 2 ∧
      (⟨"1", none⟩ : Group) ∈ envC7.allGroups ∧ envC7.id2 = some "1" ∧
      (get_broadcast_target_groups envC7).1.length
        ≠ envC7.allGroups.length - 1 :=
  ⟨rfl, by decide, rfl, by decide⟩

/-- **C7 (amended).** Target resolution removes every candidate whose
`group_id` equals the (truthy) originating id; in particular, when
exactly one candidate carries that id, the result has size `|T| - 1`. -/
theorem target_resolution_excludes (env : Env) (c : String)
    (h1 : env.id2 = some c) (h2 : c ≠ "") :
    (get_broadcast_target_groups env).1
        = env.allGroups.filter (fun g => g.group_id ≠ c) ∧
      (env.allGroups.countP (fun g => g.group_id = c) = 1 →
        (get_broadcast_target_groups env).1.length
          = env.allGroups.length - 1) := by
  have hfst : (get_broadcast_target_groups env).1
      = env.allGroups.filter (fun g => g.group_id ≠ c) := by
    unfold get_broadcast_target_groups
    rw [h1]
    have hcc : (if c ≠ "" then some c else none) = some c := if_pos h2
    simp only [hcc]
    cases hL : env.allGroups.filter (fun (g : Group) => g.group_id ≠ c) with
    | nil => simp
    | cons a as =>
      by_cases hen : ((a :: as).filter
          (fun (g : Group) => !env.blocked g.group_id)).isEmpty <;>
        simp [hen]
  refine ⟨hfst, fun hcount => ?_⟩
  rw [hfst]
  have hsplit := countP_split (fun (g : Group) => g.group_id = c) env.allGroups
  have hfilter : (env.allGroups.filter (fun g => g.group_id ≠ c)).length
      = env.allGroups.countP (fun (g : Group) => !(g.group_id = c)) := by
    rw [← List.countP_eq_length_filter]
    apply List.countP_congr
    intro g _
    simp
  rw [hfilter]
  omega

/-- Environment for the C7 witness: distinct candidate ids, one matching
the excluded id. -/
def envC7w : Env where
  platform := "other"
  isV11 := false
  selfId := "self"
  allGroups := [⟨"1", none⟩, ⟨"2", none⟩]
  id2 := some "2"
  blocked := fun _ => false
  targetRes := fun _ => .found
  sendNormal := fun _ => .raised
  sendForward := fun _ => .raised
  delete := fun _ _ => .ok
  rand := fun _ => 0

/-- Witness for C7 (amended) on a concrete two-candidate list. -/
theorem target_resolution_excludes_witness :
    (get_broadcast_target_groups envC7w).1
        = envC7w.allGroups.filter (fun g => g.group_id ≠ "2") ∧
      (get_broadcast_target_groups envC7w).1.length
        = envC7w.allGroups.length - 1 := by
  have h := target_resolution_excludes envC7w "2" rfl (by decide)
  exact ⟨h.1, h.2 (by decide)⟩

/-- Fetch oracle for C9: any identifier fetches an empty node list. -/
def fetchEmptyC9 : String → FetchResult := fun _ => .ok (.bareList [])

/-- **C9 counterexample.** A forward-bundle fetch returning an empty node
list yields the single "fetch failed" placeholder node (uid "0", name
"错误", text `[嵌套转发消息获取失败]`) — not a node carrying the "empty
content" text `[嵌套转发内容为空]`, which the source reserves for inline
content that parses to zero valid nodes. -/
theorem empty_fetch_placeholder_counterexample :
    _process_forward_content fetchEmptyC9 none (some "X") 0
        = [CustomNode.mk "0" "错误" (.strC "[嵌套转发消息获取失败]")] ∧
      "[嵌套转发消息获取失败]" ≠ "[嵌套转发内容为空]" :=
  ⟨rfl, by decide⟩

/-- **C9 (amended).** When the forward content is unparsed and the fetch
by a truthy identifier returns an empty node list (in any accepted
shape), the resolver yields exactly one placeholder node — uid "0", name
"错误", content `[嵌套转发消息获取失败]`; being a total function, the
resolver propagates no exception on any of its paths. -/
theorem empty_fetch_single_placeholder (fetch : String → FetchResult)
    (fc : Option FwdContent) (fid : Option String) (d : Nat)
    (fdata : FetchData) (h1 : inlineNodes fc = none)
    (h2 : optStrTruthy fid = true) (h3 : fetch (fid.getD "") = .ok fdata)
    (h4 : shapeNodes fdata = some []) :
    _process_forward_content fetch fc fid d
      = [CustomNode.mk "0" "错误" (.strC "[嵌套转发消息获取失败]")] := by
  unfold _process_forward_content processForwardContentWith
  rw [h1]
  simp [h2, h3, h4]

/-- Witness for C9 (amended) at a concrete fetch oracle and depth. -/
theorem empty_fetch_single_placeholder_witness :
    _process_forward_content fetchEmptyC9 none (some "X") 5
      = [CustomNode.mk "0" "错误" (.strC "[嵌套转发消息获取失败]")] :=
  empty_fetch_single_placeholder fetchEmptyC9 none (some "X") 5
    (.bareList []) rfl rfl rfl rfl

/-- Environment for the C10 witness: a qq/V11 bot with one target. -/
def envC10 : Env where
  platform := "qq"
  isV11 := true
  selfId := "self"
  allGroups := [⟨"1", none⟩]
  id2 := none
  blocked := fun _ => false
  targetRes := fun _ => .found
  sendNormal := fun _ => .raised
  sendForward := fun _ => .raised
  delete := fun _ _ => .ok
  rand := fun _ => 0

/-- **C10.** On the qq/V11 forward-broadcast path, if the constructed
wire node list is empty, the distribution operation returns success 0 and
error equal to the full target count, leaves the id map untouched, and
produces an empty trace — no send attempt and no per-target availability
check occurs. -/
theorem empty_nodes_short_circuit (env : Env) (message : List USeg)
    (targets : List Group) (ids0 : MsgIdDict)
    (hp : env.platform = "qq") (hv : env.isV11 = true)
    (hf : isForwardBroadcast message = true) (ht : targets ≠ [])
    (hn : buildV11Nodes env message = []) :
    send_to_specific_groups env message targets ids0
      = ⟨0, targets.length, ids0, []⟩ := by
  unfold send_to_specific_groups
  have ht' : targets.isEmpty = false := by
    cases targets
    · exact absurd rfl ht
    · rfl
  simp [ht', hp, hv, hf, hn]

/-- Witness for C10: a single-Reference message whose lone node has empty
content, so the constructed V11 node list is empty. -/
theorem empty_nodes_short_circuit_witness :
    send_to_specific_groups envC10
        [USeg.reference [CustomNode.mk "u" "n" (.uniC [])]] [⟨"1", none⟩] []
      = ⟨0, 1, [], []⟩ :=
  empty_nodes_short_circuit envC10
    [USeg.reference [CustomNode.mk "u" "n" (.uniC [])]] [⟨"1", none⟩] []
    rfl rfl rfl (by decide) rfl

/-! ### The C4 round trip: neutral → wire → neutral -/

/-- Flatten a `uni_segment_to_v11_segment_dict` result into the caller's
wire dict list (a dict appends, a list extends, `None` is skipped). -/
def convResToList : ConvRes → List V11Dict
  | .one d => [d]
  | .many ds => ds
  | .nores => []

/-- Whole-message neutral → wire transcoding: each segment through
`uni_segment_to_v11_segment_dict` at depth 0, results concatenated. -/
def transcodeToWire (msg : List USeg) : List V11Dict :=
  msg.flatMap fun s => convResToList (uni_segment_to_v11_segment_dict s 0)

/-- Whole-message wire → neutral transcoding: the wire dict list handed
to `_extract_content_from_message` at depth 0. -/
def transcodeToNeutral (fetch : String → FetchResult)
    (wire : List V11Dict) : List USeg :=
  _extract_content_from_message fetch (.mcList (wire.map SegObj.dictSeg)) 0

/-- Neutral → wire → neutral. -/
def roundTrip (fetch : String → FetchResult) (msg : List USeg) : List USeg :=
  transcodeToNeutral fetch (transcodeToWire msg)

/-- The kind of a segment (the claim speaks of count and ordering per
segment kind). -/
inductive SegKind where
  | ktext
  | kimage
  | kvideo
  | kat
  | katAll
  | kref
  | kother
deriving DecidableEq, Repr

def kindOf : USeg → SegKind
  | .text _ => .ktext
  | .image _ => .kimage
  | .video _ => .kvideo
  | .at _ => .kat
  | .atAll => .katAll
  | .reference _ => .kref
  | .unsupported _ => .kother

/-- Media segments the round trip preserves, mirroring the branch order
of `uni_segment_to_v11_segment_dict`: a truthy non-`base64://` url; else
nonempty raw bytes, or a raw string already carrying a decodable
`base64://` payload; else (no truthy raw) a truthy path. -/
def goodMedia (d : MediaData) : Bool :=
  if optStrTruthy d.url then !strStartsWith (d.url.getD "") "base64://"
  else
    match d.raw with
    | some (.rbytes b) => !b.isEmpty
    | some (.rstr s) =>
      s ≠ "" && strStartsWith s "base64://" && (b64decode (strDrop9 s)).isSome
    | none => optStrTruthy d.path

/-- Atomic segments the round trip preserves: non-blank text, good
media, mentions that are neither empty nor (case-insensitively) "all",
and mention-all. Forward bundles flatten and unsupported segments drop,
so they are excluded. -/
def goodAtomic : USeg → Bool
  | .text t => strStrip t ≠ ""
  | .image d => goodMedia d
  | .video d => goodMedia d
  | .at tg => tg ≠ "" && strToLower tg ≠ "all"
  | .atAll => true
  | .reference _ => false
  | .unsupported _ => false

theorem b64char_valid (i : Nat) : isB64Char (b64char i) = true := by
  have hall : (List.range 64).all
      (fun j => isB64Char (b64alphabet.getD j 'A')) = true := by decide
  rw [List.all_eq_true] at hall
  exact hall (i % 64) (List.mem_range.mpr (Nat.mod_lt i (by omega)))

theorem encodeChunks_len : ∀ bs : List Nat, (encodeChunks bs).length % 4 = 0
  | [] => by simp [encodeChunks]
  | [_] => by simp [encodeChunks]
  | [_, _] => by simp [encodeChunks]
  | _ :: _ :: _ :: rest => by
    have ih := encodeChunks_len rest
    simp only [encodeChunks, List.length_cons]
    omega

theorem encodeChunks_valid :
    ∀ bs : List Nat, ∀ c ∈ encodeChunks bs, isB64Char c = true
  | [] => by simp [encodeChunks]
  | [b1] => by
    intro c hc
    simp only [encodeChunks, List.mem_cons, List.not_mem_nil, or_false] at hc
    rcases hc with h | h | h | h <;> subst h <;>
      first | exact b64char_valid _ | decide
  | [b1, b2] => by
    intro c hc
    simp only [encodeChunks, List.mem_cons, List.not_mem_nil, or_false] at hc
    rcases hc with h | h | h | h <;> subst h <;>
      first | exact b64char_valid _ | decide
  | b1 :: b2 :: b3 :: rest => by
    intro c hc
    have ih := encodeChunks_valid rest
    simp only [encodeChunks, List.mem_cons] at hc
    rcases hc with h | h | h | h | h
    · subst h; exact b64char_valid _
    · subst h; exact b64char_valid _
    · subst h; exact b64char_valid _
    · subst h; exact b64char_valid _
    · exact ih c h

theorem b64decode_encode_isSome (bs : List Nat) :
    (b64decode (b64encode bs)).isSome = true := by
  unfold b64decode b64encode
  have h1 : (String.mk (encodeChunks bs)).toList = encodeChunks bs := rfl
  rw [h1]
  rw [List.filter_eq_self.mpr (encodeChunks_valid bs)]
  simp [encodeChunks_len bs]

theorem string_data_append (a b : String) :
    (a ++ b).data = a.data ++ b.data := by
  cases a
  cases b
  rfl

theorem strStartsWith_append_self (p x : String) :
    strStartsWith (p ++ x) p = true := by
  unfold strStartsWith
  show p.data.isPrefixOf (p ++ x).data = true
  rw [string_data_append, List.isPrefixOf_iff_prefix]
  exact List.prefix_append p.data x.data

theorem strDrop9_base64 (x : String) :
    strDrop9 ("base64://" ++ x) = x := by
  unfold strDrop9
  show String.mk (("base64://" ++ x).data.drop 9) = x
  rw [string_data_append]
  have h9 : ("base64://" : String).data.length = 9 := by decide
  rw [← h9, List.drop_left]

theorem base64_append_ne_empty (x : String) : "base64://" ++ x ≠ "" := by
  intro h
  have := congrArg String.data h
  rw [string_data_append] at this
  simp [List.append_eq_nil] at this

theorem file_append_ne_empty (x : String) : "file:///" ++ x ≠ "" := by
  intro h
  have := congrArg String.data h
  rw [string_data_append] at this
  simp [List.append_eq_nil] at this

theorem file_not_base64 (p : String) :
    strStartsWith ("file:///" ++ p) "base64://" = false := by
  unfold strStartsWith
  show ("base64://" : String).data.isPrefixOf (("file:///" ++ p)).data = false
  rw [string_data_append]
  rfl

/-- The outcome of `_process_v11_segment`'s `file` handling on a wire
`file` value. -/
def mediaFromFile (fv : String) : Option MediaData :=
  if fv = "" then none
  else if strStartsWith fv "base64://" then
    match b64decode (strDrop9 fv) with
    | some bs => some { raw := some (.rbytes bs) }
    | none => none
  else some { path := some fv }

theorem v11MediaSeg_file (mk : MediaData → USeg) (ty fv : String) :
    v11MediaSeg mk
        (match (fileDict ty fv).dat with
          | some d => d
          | none => .mk none none none none none none none)
      = match mediaFromFile fv with
        | some md => [mk md]
        | none => [] := by
  show v11MediaSeg mk (.mk none none (some fv) none none none none) = _
  unfold v11MediaSeg mediaFromFile
  by_cases h0 : fv = ""
  · simp [h0, optStrTruthy, V11Data.url, V11Data.file]
  · by_cases hb : strStartsWith fv "base64://"
    · simp only [optStrTruthy, V11Data.url, V11Data.file, Option.getD, h0, hb,
        ne_eq, decide_not]
      cases hd : b64decode (strDrop9 fv) <;> simp [h0, hd]
    · simp only [optStrTruthy, V11Data.url, V11Data.file, Option.getD, h0, hb,
        ne_eq, decide_not]
      simp [h0, hb]

theorem good_media_to_file (ty : String) (dm : MediaData)
    (h : goodMedia dm = true) :
    ∃ fv, mediaToV11Dict ty dm = .one (fileDict ty fv)
      ∧ ∃ md, mediaFromFile fv = some md := by
  unfold goodMedia at h
  unfold mediaToV11Dict
  by_cases hu : optStrTruthy dm.url
  · rw [if_pos hu] at h ⊢
    refine ⟨dm.url.getD "", rfl, ?_⟩
    have hne : dm.url.getD "" ≠ "" := by
      cases hd : dm.url with
      | none => rw [hd] at hu; simp [optStrTruthy] at hu
      | some u =>
        rw [hd] at hu
        simp only [optStrTruthy, ne_eq, decide_eq_true_eq] at hu
        simpa using hu
    have hnb : strStartsWith (dm.url.getD "") "base64://" = false := by
      simpa using h
    refine ⟨{ path := some (dm.url.getD "") }, ?_⟩
    simp [mediaFromFile, hne, hnb]
  · rw [if_neg hu] at h ⊢
    match hr : dm.raw with
    | some (.rbytes b) =>
      rw [hr] at h
      have h' : (!b.isEmpty) = true := h
      have hb : b ≠ [] := by simpa using h'
      rw [if_pos (show optRawTruthy (some (RawData.rbytes b)) = true by
        simp [optRawTruthy, RawData.truthy, hb])]
      refine ⟨"base64://" ++ b64encode b, rfl, ?_⟩
      have hdec := b64decode_encode_isSome b
      rw [Option.isSome_iff_exists] at hdec
      obtain ⟨bs, hbs⟩ := hdec
      refine ⟨{ raw := some (.rbytes bs) }, ?_⟩
      unfold mediaFromFile
      rw [if_neg (base64_append_ne_empty (b64encode b)),
        if_pos (strStartsWith_append_self "base64://" (b64encode b)),
        strDrop9_base64, hbs]
    | some (.rstr s) =>
      rw [hr] at h
      have h' : (decide (s ≠ "") && strStartsWith s "base64://"
          && (b64decode (strDrop9 s)).isSome) = true := h
      simp only [Bool.and_eq_true, ne_eq, decide_eq_true_eq] at h'
      obtain ⟨⟨hs, hpre⟩, hdec⟩ := h'
      have htr : optRawTruthy (some (RawData.rstr s)) = true := by
        simp [optRawTruthy, RawData.truthy, hs]
      rw [if_pos htr]
      have hred : (match some (RawData.rstr s) with
          | some (.rstr s) =>
            if strStartsWith s "base64://" = true then ConvRes.one (fileDict ty s)
            else ConvRes.nores
          | some (.rbytes bs) =>
            ConvRes.one (fileDict ty ("base64://" ++ b64encode bs))
          | none => ConvRes.nores) = ConvRes.one (fileDict ty s) := by
        simp [hpre]
      rw [hred]
      refine ⟨s, rfl, ?_⟩
      rw [Option.isSome_iff_exists] at hdec
      obtain ⟨bs, hbs⟩ := hdec
      refine ⟨{ raw := some (.rbytes bs) }, ?_⟩
      unfold mediaFromFile
      rw [if_neg hs, if_pos hpre, hbs]
    | none =>
      rw [hr] at h
      have h' : optStrTruthy dm.path = true := h
      rw [if_neg (show ¬ optRawTruthy none = true by simp [optRawTruthy]),
        if_pos h']
      refine ⟨"file:///" ++ dm.path.getD "", rfl, ?_⟩
      refine ⟨{ path := some ("file:///" ++ dm.path.getD "") }, ?_⟩
      unfold mediaFromFile
      rw [if_neg (file_append_ne_empty (dm.path.getD "")),
        if_neg (show ¬ strStartsWith ("file:///" ++ dm.path.getD "")
          "base64://" = true by simp [file_not_base64])]

/-- The wire → neutral processing of one wire dict at depth 0
(recursion slack 2 for nested content). -/
def wireDictBack (fetch : String → FetchResult) (d : V11Dict) : List USeg :=
  perSegObj
    (processV11SegmentWith
      (processForwardContentWith (createNodeWith (extractGo fetch 2)) fetch))
    (.dictSeg d)

theorem flatMap_map_local {α β γ : Type} (f : α → β) (g : β → List γ) :
    ∀ l : List α, (l.map f).flatMap g = l.flatMap fun a => g (f a) := by
  intro l
  induction l with
  | nil => rfl
  | cons a rest ih => simp [ih]

theorem transcodeToNeutral_flatMap (fetch : String → FetchResult)
    (wire : List V11Dict) :
    transcodeToNeutral fetch wire = wire.flatMap (wireDictBack fetch) := by
  unfold transcodeToNeutral _extract_content_from_message
  show extractGo fetch 3 (.mcList (wire.map SegObj.dictSeg)) = _
  show (wire.map SegObj.dictSeg).flatMap _ = _
  rw [flatMap_map_local]
  rfl

theorem good_seg_roundtrip (fetch : String → FetchResult) (s : USeg)
    (h : goodAtomic s = true) :
    ∃ d : V11Dict, uni_segment_to_v11_segment_dict s 0 = .one d ∧
      ∃ s' : USeg, wireDictBack fetch d = [s'] ∧ kindOf s' = kindOf s := by
  cases s with
  | text t =>
    have ht : (strStrip t ≠ "") = True := by
      simp only [goodAtomic, ne_eq, decide_not] at h
      simpa using h
    refine ⟨textDict t, rfl, .text t, ?_, rfl⟩
    simp [wireDictBack, perSegObj, processV11SegmentWith, textDict,
      V11Data.text, ht]
  | «at» tg =>
    simp only [goodAtomic, Bool.and_eq_true, ne_eq, decide_eq_true_eq] at h
    obtain ⟨h1, h2⟩ := h
    refine ⟨atDict tg, rfl, .at tg, ?_, rfl⟩
    simp [wireDictBack, perSegObj, processV11SegmentWith, atDict,
      V11Data.qq, h1, h2]
  | atAll =>
    exact ⟨atDict "all", rfl, .atAll, rfl, rfl⟩
  | image dm =>
    obtain ⟨fv, hconv, md, hback⟩ := good_media_to_file "image" dm
      (by simpa [goodAtomic] using h)
    refine ⟨fileDict "image" fv, ?_, .image md, ?_, rfl⟩
    · show uniSegToV11Go 3 (.image dm) = _
      show mediaToV11Dict "image" dm = _
      exact hconv
    · have := v11MediaSeg_file USeg.image "image" fv
      rw [hback] at this
      simpa [wireDictBack, perSegObj, processV11SegmentWith, fileDict]
        using this
  | video dm =>
    obtain ⟨fv, hconv, md, hback⟩ := good_media_to_file "video" dm
      (by simpa [goodAtomic] using h)
    refine ⟨fileDict "video" fv, ?_, .video md, ?_, rfl⟩
    · show uniSegToV11Go 3 (.video dm) = _
      show mediaToV11Dict "video" dm = _
      exact hconv
    · have := v11MediaSeg_file USeg.video "video" fv
      rw [hback] at this
      simpa [wireDictBack, perSegObj, processV11SegmentWith, fileDict]
        using this
  | reference nodes => simp [goodAtomic] at h
  | unsupported d => simp [goodAtomic] at h

theorem roundTrip_kinds (fetch : String → FetchResult) :
    ∀ msg : List USeg, msg.all goodAtomic = true →
      (roundTrip fetch msg).map kindOf = msg.map kindOf := by
  intro msg
  induction msg with
  | nil => intro _; rfl
  | cons s rest ih =>
    intro h
    rw [List.all_cons, Bool.and_eq_true] at h
    obtain ⟨d, hd, s', hs', hk⟩ := good_seg_roundtrip fetch s h.1
    have hwire : transcodeToWire (s :: rest)
        = d :: transcodeToWire rest := by
      unfold transcodeToWire
      rw [List.flatMap_cons, hd]
      rfl
    unfold roundTrip
    rw [hwire, transcodeToNeutral_flatMap, List.flatMap_cons, hs']
    have hrest : (transcodeToWire rest).flatMap (wireDictBack fetch)
        = roundTrip fetch rest := by
      unfold roundTrip
      rw [transcodeToNeutral_flatMap]
    rw [hrest]
    simp only [List.map_cons, List.map_append, List.singleton_append]
    rw [hk, ih h.2]

/-- Fetch oracle for the C4 concrete runs (never consulted on these
inputs). -/
def fetchC4 : String → FetchResult := fun _ => .actionFailed

/-- The C4 counterexample message: one forward bundle at depth 0. -/
def msgC4 : List USeg :=
  [.reference [CustomNode.mk "1" "A" (.uniC [.text "hi"])]]

/-- **C4 counterexample.** A message consisting of one forward bundle at
nesting depth 0 (well below 3) round-trips to three text segments — the
wire form flattens each node into author-separator text, content and a
closing text — so segment count is not preserved even though the bundle
is not nested beyond depth 3. -/
theorem roundtrip_forward_flatten_counterexample :
    msgC4.length = 1 ∧ (roundTrip fetchC4 msgC4).length = 3 ∧
      (3 : Nat) ≠ 1 :=
  ⟨rfl, rfl, by decide⟩

/-- **C4 (amended).** Neutral → wire → neutral transcoding preserves the
segment count and the per-position segment kind for every message of
well-formed atomic segments (non-blank text, media with a usable source,
mentions other than ""/"all", mention-all); a forward bundle is *not*
preserved — at depth below 3 it is flattened into author-separator text
segments, and one nested at depth ≥ 3 collapses to exactly one
placeholder text dict. -/
theorem roundtrip_preserves_atomic_kinds (fetch : String → FetchResult)
    (msg : List USeg) (nodes : List CustomNode) (d : Nat)
    (hgood : msg.all goodAtomic = true) (hn : nodes ≠ [])
    (hd : MAX_FORWARD_DEPTH ≤ d) :
    (roundTrip fetch msg).map kindOf = msg.map kindOf ∧
      uni_segment_to_v11_segment_dict (.reference nodes) d
        = .one (textDict tooDeepText) := by
  refine ⟨roundTrip_kinds fetch msg hgood, ?_⟩
  unfold uni_segment_to_v11_segment_dict
  have h0 : MAX_FORWARD_DEPTH - d = 0 := Nat.sub_eq_zero_of_le hd
  rw [h0]
  show uniSegToV11Go 0 (.reference nodes) = _
  unfold uniSegToV11Go
  have : nodes.isEmpty = false := by
    cases nodes
    · exact absurd rfl hn
    · rfl
  simp [this]

/-- Witness for C4 (amended) at a concrete five-segment message (one of
each preserved kind, including a raw-bytes image) and a depth-3 forward
bundle. -/
theorem roundtrip_preserves_atomic_kinds_witness :
    (roundTrip fetchC4
          [.text "hello", .at "42", .atAll, .image { url := some "http://x" },
            .video { raw := some (.rbytes [1, 2, 3]) }]).map kindOf
        = [USeg.text "hello", .at "42", .atAll,
            .image { url := some "http://x" },
            .video { raw := some (.rbytes [1, 2, 3]) }].map kindOf ∧
      uni_segment_to_v11_segment_dict
          (.reference [CustomNode.mk "1" "A" (.uniC [.text "hi"])]) 3
        = .one (textDict tooDeepText) :=
  roundtrip_preserves_atomic_kinds fetchC4
    [.text "hello", .at "42", .atAll, .image { url := some "http://x" },
      .video { raw := some (.rbytes [1, 2, 3]) }]
    [CustomNode.mk "1" "A" (.uniC [.text "hi"])] 3
    (by decide) (List.cons_ne_nil _ _) (by decide)

end Broadcast
